import Mathlib

/-!
# GURT server: handshake negotiation, request parsing and route dispatch

A shallow embedding of `src/gurt-server.js` (class `GURTServer`): the route
table, the raw-socket `data` handler of `handleConnection` (handshake), and the
`data` handler of the TLS socket (request parsing and dispatch).

Text is a list of Unicode characters.  Effects on the outside world
(`socket.write`, `new tls.TLSSocket`, `socket.destroy`, handler calls,
`tlsSocket.write`) are recorded, in order, in a trace.
-/

namespace Gurt

/-- Text: the result of `data.toString("utf8")`, a sequence of characters. -/
abbrev Str := List Char

/-! ## JavaScript string primitives used by the server -/

/-- `s.startsWith(pat)`. -/
def startsWith (pat s : Str) : Bool := pat.isPrefixOf s

/-- `s.includes(pat)`: `pat` occurs somewhere in `s`. -/
def includes (pat : Str) : Str → Bool
  | [] => pat.isPrefixOf []
  | c :: cs => pat.isPrefixOf (c :: cs) || includes pat cs

/-- Worker of `split`: scans the text left to right.  `skip` counts the
characters of a separator just matched that are still to be passed over, and
`cur` holds the current piece, reversed. -/
def splitGo (sep : Str) : Str → Nat → Str → List Str
  | [], _, cur => [cur.reverse]
  | _ :: cs, skip + 1, cur => splitGo sep cs skip cur
  | c :: cs, 0, cur =>
    if sep.isPrefixOf (c :: cs) then cur.reverse :: splitGo sep cs (sep.length - 1) []
    else splitGo sep cs 0 (c :: cur)

/-- `s.split(sep)` for a non-empty separator: the pieces between the
non-overlapping occurrences of `sep`, found left to right. -/
def split (sep s : Str) : List Str := splitGo sep s 0 []

/-- `pieces.join(sep)`. -/
def join (sep : Str) (pieces : List Str) : Str := sep.intercalate pieces

/-- White space and line terminators of ECMAScript, the characters removed by
`String.prototype.trim`. -/
def isTrimChar (c : Char) : Bool :=
  c.toNat ∈ [9, 10, 11, 12, 13, 32, 160, 5760, 8192, 8193, 8194, 8195, 8196, 8197, 8198,
    8199, 8200, 8201, 8202, 8232, 8233, 8239, 8287, 12288, 65279]

/-- `s.trim()`. -/
def trim (s : Str) : Str :=
  ((s.dropWhile isTrimChar).reverse.dropWhile isTrimChar).reverse

/-- `Buffer.byteLength(s)`: the number of bytes of the UTF-8 encoding of `s`. -/
def byteLength (s : Str) : Nat := (s.map Char.utf8Size).sum

/-- The decimal text of a number, as produced by a template literal. -/
def numberText (n : Nat) : Str := (Nat.repr n).toList

/-- The case mappings `toUpperCase` and `toLowerCase` of the JavaScript runtime.
Their Unicode tables are not part of the repository, so they are parameters. -/
structure CaseMap where
  toUpperCase : Str → Str
  toLowerCase : Str → Str

/-- Upper-casing of one ASCII letter. -/
def asciiUpperChar (c : Char) : Char :=
  if 97 ≤ c.toNat ∧ c.toNat ≤ 122 then Char.ofNat (c.toNat - 32) else c

/-- Lower-casing of one ASCII letter. -/
def asciiLowerChar (c : Char) : Char :=
  if 65 ≤ c.toNat ∧ c.toNat ≤ 90 then Char.ofNat (c.toNat + 32) else c

/-- The case mappings restricted to ASCII letters (other characters are left
alone); it agrees with the JavaScript runtime on ASCII text and is used to
evaluate the server on concrete ASCII inputs. -/
def asciiCase : CaseMap where
  toUpperCase := List.map asciiUpperChar
  toLowerCase := List.map asciiLowerChar

/-! ## Protocol constants -/

/-- The line terminator `"\r\n"`. -/
def CRLF : Str := "\r\n".toList

/-- The terminator `"\r\n\r\n"` looked for by the raw `data` handler. -/
def TERMINATOR : Str := "\r\n\r\n".toList

/-- The text a buffer has to start with: `"HANDSHAKE / GURT/1.0.0"`. -/
def HANDSHAKE_START : Str := "HANDSHAKE / GURT/1.0.0".toList

/-- The plaintext answer to an accepted handshake; `now` is
`new Date().toUTCString()`. -/
def handshakeResponse (now : Str) : Str :=
  "GURT/1.0.0 101 SWITCHING_PROTOCOLS\r\n".toList ++
  "gurt-version: 1.0.0\r\n".toList ++
  "encryption: TLS/1.3\r\n".toList ++
  "alpn: GURT/1.0\r\n".toList ++
  "server: GURT/1.0.0\r\n".toList ++
  "date: ".toList ++ now ++ "\r\n\r\n".toList

/-- The body of the built-in answer to an unknown route. -/
def resBody : Str := "Not Found".toList

/-- The built-in answer to an unknown route; `now` is
`new Date().toUTCString()`. -/
def notFoundResponse (now : Str) : Str :=
  "GURT/1.0.0 404 Not Found\r\n".toList ++
  "content-type: text/plain\r\n".toList ++
  "content-length: ".toList ++ numberText (byteLength resBody) ++ "\r\n".toList ++
  "server: GURT/1.0.0\r\n".toList ++
  "date: ".toList ++ now ++ "\r\n\r\n".toList ++
  resBody

/-! ## Objects used as maps -/

/-- An object created by `{}` and used as a map from text keys: its own
properties, the most recently assigned first. -/
abbrev JSObject (α : Type) := List (Str × α)

/-- The property name `__proto__`. -/
def PROTO : Str := "__proto__".toList

/-- The assignment `obj[key] = value` on an object created by `{}`.  The name
`__proto__` is an accessor inherited from `Object.prototype`, whose setter
ignores a value that is not an object: assigning text to it stores nothing.
(The keys of the route table contain a space, so the case never arises
there.) -/
def JSObject.set {α : Type} (obj : JSObject α) (key : Str) (value : α) : JSObject α :=
  if key = PROTO then obj else (key, value) :: obj

/-- The own property `obj[key]`, `none` standing for `undefined`. -/
def JSObject.get {α : Type} (obj : JSObject α) (key : Str) : Option α :=
  obj.lookup key

/-! ## Route registration -/

/-- `route(method, path, handler)`:
`this.routes[method.toUpperCase() + " " + path] = handler`. -/
def route {H : Type} (cm : CaseMap) (routes : JSObject H) (method path : Str) (handler : H) :
    JSObject H :=
  routes.set (cm.toUpperCase method ++ " ".toList ++ path) handler

/-! ## Request parsing (the `data` handler of the TLS socket) -/

/-- The object handed to a route handler (the socket and the peer address,
fixed for a connection, are left out). -/
structure Request where
  request : Str
  headers : JSObject Str
  body : Str
  method : Str
  path : Option Str
  deriving DecidableEq

/-- The variables `headers`, `body`, `isBody` of the loop over the header
lines. -/
structure ParseState where
  headers : JSObject Str
  body : Str
  isBody : Bool
  deriving DecidableEq

/-- The name part of a header line: `line.split(":")[0]`. -/
def headerKey (line : Str) : Str := (split ":".toList line).headD []

/-- The value part of a header line: the other pieces of `line.split(":")`,
joined by `":"`. -/
def headerRest (line : Str) : Str := join ":".toList (split ":".toList line).tail

/-- One round of `headerLines.forEach`. -/
def parseLine (cm : CaseMap) (st : ParseState) (line : Str) : ParseState :=
  if line = [] then { st with isBody := true }
  else if st.isBody then { st with body := st.body ++ line ++ "\n".toList }
  else { st with headers := st.headers.set (cm.toLowerCase (headerKey line)) (trim (headerRest line)) }

/-- The whole loop `headerLines.forEach`. -/
def parseLines (cm : CaseMap) (lines : List Str) : ParseState :=
  lines.foldl (parseLine cm) { headers := [], body := [], isBody := false }

/-- The request built from one decrypted chunk `reqStr`. -/
def parseRequest (cm : CaseMap) (reqStr : Str) : Request :=
  let lines := split CRLF reqStr
  let methodLine := lines.headD []
  let headerLines := lines.tail
  let tokens := split " ".toList methodLine
  let st := parseLines cm headerLines
  { request := reqStr, headers := st.headers, body := st.body,
    method := tokens.headD [], path := tokens.get? 1 }

/-- The text of a path inside a template literal: a missing path prints as
`undefined`. -/
def pathText (path : Option Str) : Str := path.getD "undefined".toList

/-- The key looked up in the route table: `method.toUpperCase() + " " + path`. -/
def routeKey (cm : CaseMap) (req : Request) : Str :=
  cm.toUpperCase req.method ++ " ".toList ++ pathText req.path

/-! ## Effects and event handlers -/

/-- What the server does to the outside world, in the order it does it. -/
inductive Effect (H : Type) where
  | socketWrite (bytes : Str)
  | newTLSSocket
  | socketDestroy
  | handlerCall (h : H) (req : Request)
  | tlsWrite (bytes : Str)
  | tlsDestroy
  deriving DecidableEq

/-- A dispatch: a route handler is called or the not-found answer is written. -/
def Effect.isDispatch {H : Type} : Effect H → Bool
  | .handlerCall _ _ => true
  | .tlsWrite _ => true
  | _ => false

/-- The case mappings of the runtime together with the behaviour of the
registered handlers that matters to the server: whether a call raises. -/
structure Env (H : Type) where
  case : CaseMap
  raises : H → Request → Bool

/-- Result of the raw `data` handler: the new value of `buffer`, whether a TLS
socket (with its `data` handler) was created, and the effects. -/
structure SocketOutcome (H : Type) where
  buffer : Str
  upgraded : Bool
  effects : List (Effect H)
  deriving DecidableEq

/-- The handler `socket.on("data", ...)` of `handleConnection`. -/
def onSocketData {H : Type} (buffer data now : Str) : SocketOutcome H :=
  let buffer := buffer ++ data
  if includes TERMINATOR buffer then
    if startsWith HANDSHAKE_START buffer then
      { buffer := [], upgraded := true,
        effects := [.socketWrite (handshakeResponse now), .newTLSSocket] }
    else { buffer := buffer, upgraded := false, effects := [.socketDestroy] }
  else { buffer := buffer, upgraded := false, effects := [] }

/-- Result of the `data` handler of the TLS socket: the effects, and whether an
exception left the handler uncaught. -/
structure TlsOutcome (H : Type) where
  effects : List (Effect H)
  raised : Bool
  deriving DecidableEq

/-- The handler `tlsSocket.on("data", ...)`: parse the chunk, look the route up,
call the handler or write the not-found answer.  The call is not guarded, so an
exception raised by the handler leaves the callback. -/
def onTlsData {H : Type} (env : Env H) (routes : JSObject H) (data now : Str) : TlsOutcome H :=
  let req := parseRequest env.case data
  match routes.get (routeKey env.case req) with
  | some handler => { effects := [.handlerCall handler req], raised := env.raises handler req }
  | none => { effects := [.tlsWrite (notFoundResponse now)], raised := false }

/-! ## The connection as a state machine -/

/-- What can happen on a connection: data on the raw socket, decrypted data on
the TLS socket, an error on the TLS socket.  `now` is the date text at that
moment. -/
inductive Event where
  | socketData (data now : Str)
  | tlsData (data now : Str)
  | tlsError
  deriving DecidableEq

/-- State of one connection: the variable `buffer`, whether a TLS socket with
its handlers exists (a further handshake on the raw socket would create another
one with the same handlers), whether an uncaught exception ended the process,
and the effects so far. -/
structure Conn (H : Type) where
  buffer : Str
  tls : Bool
  halted : Bool
  trace : List (Effect H)
  deriving DecidableEq

/-- A freshly accepted connection. -/
def Conn.fresh {H : Type} : Conn H := { buffer := [], tls := false, halted := false, trace := [] }

/-- One event.  The handlers of the TLS socket are registered when the socket
is created, so its events do nothing before that.  Every order of events is
accepted, also those the runtime never delivers (raw data after the upgrade or
after the socket was destroyed). -/
def step {H : Type} (env : Env H) (routes : JSObject H) (c : Conn H) : Event → Conn H
  | .socketData data now =>
    let r : SocketOutcome H := onSocketData c.buffer data now
    { c with buffer := r.buffer, tls := c.tls || r.upgraded, trace := c.trace ++ r.effects }
  | .tlsData data now =>
    if c.tls then
      let r := onTlsData env routes data now
      { c with halted := r.raised, trace := c.trace ++ r.effects }
    else c
  | .tlsError => if c.tls then { c with trace := c.trace ++ [.tlsDestroy] } else c

/-- A sequence of events.  An exception that leaves an event callback is not
handled anywhere in the program, so nothing runs after it. -/
def run {H : Type} (env : Env H) (routes : JSObject H) (c : Conn H) (events : List Event) : Conn H :=
  events.foldl (fun c ev => if c.halted then c else step env routes c ev) c

/-- The environment used for concrete evaluations: ASCII case mappings and
handlers (numbered) that never raise. -/
def quietEnv : Env Nat := { case := asciiCase, raises := fun _ _ => false }

/-- Like `quietEnv`, but every handler call raises. -/
def faultyEnv : Env Nat := { case := asciiCase, raises := fun _ _ => true }

/-- A date text for concrete evaluations. -/
def someDate : Str := "Thu, 01 Jan 1970 00:00:00 GMT".toList

/-! ## The inputs the specification talks about -/

/-- The handshake line as the specification reads it: the text of the buffer up
to its first `"\r\n"`. -/
def specFirstLine (buffer : Str) : Str := (split CRLF buffer).headD []

/-- The protocol/version token as the specification reads it: the third
space-separated token of the handshake line. -/
def specVersionToken (line : Str) : Option Str := (split " ".toList line).get? 2

/-- A handshake request: the line `HANDSHAKE / GURT/1.0.0`, then the header
lines, each ended by `"\r\n"`, then a final `"\r\n"`. -/
def handshakeRequest (headerLines : List Str) : Str :=
  "HANDSHAKE / GURT/1.0.0\r\n".toList ++ (headerLines.map (fun l => l ++ CRLF)).flatten ++ CRLF

/-- The events that deliver the given chunks, each with its date text, on the
raw socket. -/
def socketEvents (chunks : List (Str × Str)) : List Event :=
  chunks.map (fun p => Event.socketData p.1 p.2)

/-- The handshake answer followed by the creation of the TLS socket occurs in
the trace. -/
def handshakeDone {H : Type} (trace : List (Effect H)) : Prop :=
  ∃ a b now, trace = a ++ Effect.socketWrite (handshakeResponse now) :: Effect.newTLSSocket :: b

/-- A token of a start line: no space, carriage return or line feed in it. -/
def plainToken (s : Str) : Prop := ∀ c ∈ s, c ≠ ' ' ∧ c ≠ '\r' ∧ c ≠ '\n'

/-- The text of a line before its first colon (the whole line when it has
none). -/
def beforeColon (line : Str) : Str := line.takeWhile (fun c => c != ':')

/-- The text of a line after its first colon (empty when it has none). -/
def afterColon (line : Str) : Str := (line.dropWhile (fun c => c != ':')).drop 1

/-- The text that follows the first occurrence of `pat` in a text, if any. -/
def afterFirst (pat : Str) : Str → Option Str
  | [] => if pat = [] then some [] else none
  | c :: cs => if pat.isPrefixOf (c :: cs) then some ((c :: cs).drop pat.length)
    else afterFirst pat cs

/-- A request frame: a start line `METHOD PATH`, header lines, a blank line. -/
structure Frame where
  method : Str
  path : Str
  headerLines : List Str

/-- The text of a frame on the wire; it ends with `"\r\n\r\n"`. -/
def Frame.text (f : Frame) : Str :=
  f.method ++ " ".toList ++ f.path ++ CRLF ++ (f.headerLines.map (fun l => l ++ CRLF)).flatten ++ CRLF

/-- A well-formed frame: method and path are plain tokens, and no header line
is empty or holds a carriage return or a line feed. -/
def Frame.wellFormed (f : Frame) : Prop :=
  plainToken f.method ∧ plainToken f.path ∧
    ∀ l ∈ f.headerLines, l ≠ [] ∧ ∀ c ∈ l, c ≠ '\r' ∧ c ≠ '\n'

/-- The headers of a frame: each header line, in order, gives an entry from
the lower-cased text before its first colon to the trimmed text after it, a
later entry hiding an earlier one of the same name. -/
def Frame.headers (cm : CaseMap) (f : Frame) : JSObject Str :=
  f.headerLines.foldl
    (fun (o : JSObject Str) l => (cm.toLowerCase (beforeColon l), trim (afterColon l)) :: o) []

/-- The request a frame stands for: its method, path and headers, no body. -/
def Frame.request (cm : CaseMap) (f : Frame) : Request :=
  { request := f.text, headers := f.headers cm, body := [], method := f.method,
    path := some f.path }

/-- The dispatch of a request: the call of the handler registered under its
route key, or the not-found answer. -/
def dispatchOf {H : Type} (cm : CaseMap) (routes : JSObject H) (req : Request) (now : Str) :
    Effect H :=
  match routes.get (routeKey cm req) with
  | some handler => .handlerCall handler req
  | none => .tlsWrite (notFoundResponse now)

/-- The events that deliver each frame as one chunk of its own, each with its
date text, on the TLS socket. -/
def frameEvents (frames : List (Frame × Str)) : List Event :=
  frames.map (fun p => Event.tlsData p.1.text p.2)

/-- Several calls of `route`, in order: each entry is a method, a path and a
handler. -/
def registerAll {H : Type} (cm : CaseMap) (routes : JSObject H) (regs : List (Str × Str × H)) :
    JSObject H :=
  regs.foldl (fun r x => route cm r x.1 x.2.1 x.2.2) routes

/-- The body the parsing loop builds from the lines that follow the blank
line: every non-empty line followed by a line feed. -/
def bodyOfLines (lines : List Str) : Str :=
  ((lines.filter (fun l => l != [])).map (fun l => l ++ "\n".toList)).flatten

/-! ## Facts about the string primitives -/

theorem CRLF_eq : CRLF = ['\r', '\n'] := by decide

theorem isPrefixOf_cons_ne (a c : Char) (s cs : Str) (h : c ≠ a) :
    (a :: s).isPrefixOf (c :: cs) = false := by
  have : (a == c) = false := by simpa using Ne.symm h
  simp [List.isPrefixOf, this]

theorem splitGo_skip (sep x rest cur : Str) :
    splitGo sep (x ++ rest) x.length cur = splitGo sep rest 0 cur := by
  induction x with
  | nil => rfl
  | cons c x ih => simpa [splitGo] using ih

theorem splitGo_noSep (a : Char) (s l rest : Str) (h : ∀ c ∈ l, c ≠ a) (cur : Str) :
    splitGo (a :: s) (l ++ rest) 0 cur = splitGo (a :: s) rest 0 (l.reverse ++ cur) := by
  induction l generalizing cur with
  | nil => rfl
  | cons c l ih =>
    have hc : c ≠ a := h c (List.mem_cons_self _ _)
    have hl : ∀ d ∈ l, d ≠ a := fun d hd => h d (List.mem_cons_of_mem _ hd)
    have hp : (a :: s).isPrefixOf (c :: (l ++ rest)) = false := isPrefixOf_cons_ne a c s _ hc
    rw [List.cons_append, splitGo, if_neg (by simp [hp]), ih hl]
    simp

theorem splitGo_sep (a : Char) (s rest cur : Str) :
    splitGo (a :: s) ((a :: s) ++ rest) 0 cur = cur.reverse :: splitGo (a :: s) rest 0 [] := by
  have hp : (a :: s).isPrefixOf (a :: (s ++ rest)) = true := by
    simp [List.isPrefixOf_iff_prefix]
  rw [List.cons_append, splitGo, if_pos hp]
  simp only [List.length_cons, Nat.add_sub_cancel]
  rw [splitGo_skip]

theorem splitGo_end (a : Char) (s l cur : Str) (h : ∀ c ∈ l, c ≠ a) :
    splitGo (a :: s) l 0 cur = [cur.reverse ++ l] := by
  have := splitGo_noSep a s l [] h cur
  simp only [List.append_nil] at this
  rw [this, splitGo]
  simp

/-- A piece without the first character of the separator, followed by the
separator, is the first piece of the split. -/
theorem split_piece (a : Char) (s l rest : Str) (h : ∀ c ∈ l, c ≠ a) :
    split (a :: s) (l ++ ((a :: s) ++ rest)) = l :: split (a :: s) rest := by
  unfold split
  rw [splitGo_noSep a s l _ h, splitGo_sep]
  simp

/-- A text without the first character of the separator is not split. -/
theorem split_single (a : Char) (s l : Str) (h : ∀ c ∈ l, c ≠ a) :
    split (a :: s) l = [l] := by
  unfold split
  rw [splitGo_end a s l [] h]
  simp

theorem includes_iff (pat s : Str) : includes pat s = true ↔ pat <:+: s := by
  induction s with
  | nil => simp [includes, List.isPrefixOf_iff_prefix]
  | cons c cs ih =>
    rw [includes, Bool.or_eq_true, ih, List.isPrefixOf_iff_prefix, List.infix_cons_iff]

theorem includes_append_left (pat a b : Str) (h : includes pat a = true) :
    includes pat (a ++ b) = true := by
  rw [includes_iff] at *
  exact h.trans (List.infix_append' [] a b |>.trans (by simp))

theorem splitGo_head (sep : Str) (s : Str) (k : Nat) (cur : Str) :
    ∃ x t, splitGo sep s k cur = (cur.reverse ++ x) :: t := by
  induction s generalizing k cur with
  | nil => exact ⟨[], [], by simp [splitGo]⟩
  | cons c cs ih =>
    cases k with
    | succ k => simpa [splitGo] using ih k cur
    | zero =>
      rw [splitGo]
      split
      · exact ⟨[], splitGo sep cs (sep.length - 1) [], by simp⟩
      · obtain ⟨x, t, h⟩ := ih 0 (c :: cur)
        exact ⟨c :: x, t, by simp [h]⟩

/-- The first piece of a split starts with any leading text that is free of the
first character of the separator. -/
theorem split_head (a : Char) (s l rest : Str) (h : ∀ c ∈ l, c ≠ a) :
    ∃ x t, split (a :: s) (l ++ rest) = (l ++ x) :: t := by
  unfold split
  rw [splitGo_noSep a s l rest h]
  obtain ⟨x, t, hx⟩ := splitGo_head (a :: s) rest 0 (l.reverse ++ [])
  exact ⟨x, t, by simpa using hx⟩

/-! ## The handshake -/

theorem onSocketData_quiet {H : Type} (buffer data now : Str)
    (h : includes TERMINATOR (buffer ++ data) = false) :
    (onSocketData buffer data now : SocketOutcome H)
      = { buffer := buffer ++ data, upgraded := false, effects := [] } := by
  simp [onSocketData, h]

theorem onSocketData_accept {H : Type} (buffer data now : Str)
    (h : includes TERMINATOR (buffer ++ data) = true)
    (hs : startsWith HANDSHAKE_START (buffer ++ data) = true) :
    (onSocketData buffer data now : SocketOutcome H)
      = { buffer := [], upgraded := true,
          effects := [.socketWrite (handshakeResponse now), .newTLSSocket] } := by
  simp [onSocketData, h, hs]

theorem onSocketData_reject {H : Type} (buffer data now : Str)
    (h : includes TERMINATOR (buffer ++ data) = true)
    (hs : startsWith HANDSHAKE_START (buffer ++ data) = false) :
    (onSocketData buffer data now : SocketOutcome H)
      = { buffer := buffer ++ data, upgraded := false, effects := [.socketDestroy] } := by
  simp [onSocketData, h, hs]

/-- A buffer that starts with `HANDSHAKE / GURT/1.0.0` has a first line that
begins with `HANDSHAKE` and a third token that begins with `GURT/1.0.0`. -/
theorem start_tokens (b : Str) (h : startsWith HANDSHAKE_START b = true) :
    startsWith "HANDSHAKE".toList (specFirstLine b) = true ∧
    ∃ v, specVersionToken (specFirstLine b) = some v ∧ startsWith "GURT/1.0.0".toList v = true := by
  unfold startsWith at h
  rw [List.isPrefixOf_iff_prefix] at h
  obtain ⟨rest, rfl⟩ := h
  have hfree : ∀ c ∈ HANDSHAKE_START, c ≠ '\r' := by decide
  obtain ⟨x, t, hx⟩ := split_head ('\r') ['\n'] HANDSHAKE_START rest hfree
  have hline : specFirstLine (HANDSHAKE_START ++ rest) = HANDSHAKE_START ++ x := by
    unfold specFirstLine
    rw [CRLF_eq, hx]
    rfl
  rw [hline]
  refine ⟨?_, ?_⟩
  · have : HANDSHAKE_START ++ x = "HANDSHAKE".toList ++ (" / GURT/1.0.0".toList ++ x) := by
      have : HANDSHAKE_START = "HANDSHAKE".toList ++ " / GURT/1.0.0".toList := by decide
      rw [this, List.append_assoc]
    rw [this]
    unfold startsWith
    rw [List.isPrefixOf_iff_prefix]
    exact List.prefix_append _ _
  · have e1 : HANDSHAKE_START ++ x
        = "HANDSHAKE".toList ++ ([' '] ++ ("/".toList ++ ([' '] ++
            ("GURT/1.0.0".toList ++ x)))) := by
      have : HANDSHAKE_START = "HANDSHAKE".toList ++ ([' '] ++ ("/".toList ++
          ([' '] ++ "GURT/1.0.0".toList))) := by decide
      rw [this]
      simp
    have hsp : " ".toList = [' '] := by decide
    obtain ⟨y, u, hy⟩ := split_head (' ') [] "GURT/1.0.0".toList x (by decide)
    refine ⟨"GURT/1.0.0".toList ++ y, ?_, ?_⟩
    · unfold specVersionToken
      rw [e1, hsp, split_piece (' ') [] _ _ (by decide),
        split_piece (' ') [] _ _ (by decide), hy]
      rfl
    · unfold startsWith
      rw [List.isPrefixOf_iff_prefix]
      exact List.prefix_append _ _

/-- C1 (counterexample): the buffer `HANDSHAKE / GURT/1.0.07` + blank line
contains the terminator and carries the version token `GURT/1.0.07`, different
from `GURT/1.0.0`; the raw data handler nevertheless writes the 101 answer and
creates the TLS socket, and does not destroy the socket. -/
theorem handshake_longer_version_accepted :
    includes TERMINATOR "HANDSHAKE / GURT/1.0.07\r\n\r\n".toList = true ∧
    specVersionToken (specFirstLine "HANDSHAKE / GURT/1.0.07\r\n\r\n".toList)
      = some "GURT/1.0.07".toList ∧
    "GURT/1.0.07".toList ≠ "GURT/1.0.0".toList ∧
    (onSocketData [] "HANDSHAKE / GURT/1.0.07\r\n\r\n".toList someDate : SocketOutcome Nat)
      = { buffer := [], upgraded := true,
          effects := [.socketWrite (handshakeResponse someDate), .newTLSSocket] } := by
  decide

/-- C1 (amended): for every accumulated raw buffer that contains the terminator
and whose first line does not begin with `HANDSHAKE`, or whose version token is
missing or does not begin with `GURT/1.0.0`, or that as a whole does not begin
with `HANDSHAKE / GURT/1.0.0`, the raw data handler destroys the socket and
writes nothing: its only effect is the destruction, and no TLS socket is
created. -/
theorem handshake_rejected {H : Type} (buffer data now : Str)
    (hterm : includes TERMINATOR (buffer ++ data) = true)
    (hbad : startsWith "HANDSHAKE".toList (specFirstLine (buffer ++ data)) = false ∨
      (∀ v, specVersionToken (specFirstLine (buffer ++ data)) = some v →
        startsWith "GURT/1.0.0".toList v = false) ∨
      startsWith HANDSHAKE_START (buffer ++ data) = false) :
    (onSocketData buffer data now : SocketOutcome H)
      = { buffer := buffer ++ data, upgraded := false, effects := [.socketDestroy] } := by
  apply onSocketData_reject buffer data now hterm
  cases hst : startsWith HANDSHAKE_START (buffer ++ data) with
  | false => rfl
  | true =>
    exfalso
    obtain ⟨h1, v, hv, h2⟩ := start_tokens _ hst
    rcases hbad with hb | hb | hb
    · rw [h1] at hb; exact Bool.noConfusion hb
    · have := hb v hv
      rw [h2] at this; exact Bool.noConfusion this
    · rw [hst] at hb; exact Bool.noConfusion hb

/-- C1 (amended), at a concrete input: a request line with the method `GET`. -/
theorem handshake_rejected_witness :
    (onSocketData [] "GET / GURT/1.0.0\r\n\r\n".toList someDate : SocketOutcome Nat)
      = { buffer := [] ++ "GET / GURT/1.0.0\r\n\r\n".toList, upgraded := false,
          effects := [.socketDestroy] } :=
  handshake_rejected [] "GET / GURT/1.0.0\r\n\r\n".toList someDate (by decide)
    (Or.inl (by decide))

theorem handshakeRequest_start (headerLines : List Str) :
    startsWith HANDSHAKE_START (handshakeRequest headerLines) = true := by
  have : "HANDSHAKE / GURT/1.0.0\r\n".toList = HANDSHAKE_START ++ CRLF := by decide
  unfold startsWith handshakeRequest
  rw [List.isPrefixOf_iff_prefix, this, List.append_assoc, List.append_assoc]
  exact List.prefix_append _ _

theorem crlf_lines_end (headerLines : List Str) :
    ∃ y, CRLF ++ (headerLines.map (fun l => l ++ CRLF)).flatten = y ++ CRLF := by
  induction headerLines with
  | nil => exact ⟨[], by simp⟩
  | cons l t ih =>
    obtain ⟨y, hy⟩ := ih
    refine ⟨CRLF ++ l ++ y, ?_⟩
    simp only [List.map_cons, List.flatten_cons, List.append_assoc]
    rw [hy]

theorem handshakeRequest_term (headerLines : List Str) :
    includes TERMINATOR (handshakeRequest headerLines) = true := by
  have h1 : "HANDSHAKE / GURT/1.0.0\r\n".toList = HANDSHAKE_START ++ CRLF := by decide
  have h2 : TERMINATOR = CRLF ++ CRLF := by decide
  obtain ⟨y, hy⟩ := crlf_lines_end headerLines
  rw [includes_iff, h2]
  refine ⟨HANDSHAKE_START ++ y, [], ?_⟩
  unfold handshakeRequest
  rw [h1]
  simp only [List.append_assoc, List.append_nil]
  rw [← List.append_assoc CRLF _ CRLF, hy]
  simp

/-- C2: whenever the accumulated buffer is `HANDSHAKE / GURT/1.0.0` followed by
any header lines and the final blank line, the raw data handler makes exactly
one write, before it creates the TLS socket, and does not destroy the socket;
the bytes written are the fixed 101 answer with the current date text, and the
same holds for the trace of a fresh connection that receives the request. -/
theorem handshake_accepted {H : Type} (env : Env H) (routes : JSObject H)
    (headerLines : List Str) (now : Str) :
    (∀ buffer data, buffer ++ data = handshakeRequest headerLines →
      (onSocketData buffer data now : SocketOutcome H)
        = { buffer := [], upgraded := true,
            effects := [.socketWrite (handshakeResponse now), .newTLSSocket] }) ∧
    (run env routes Conn.fresh [.socketData (handshakeRequest headerLines) now]).trace
      = [.socketWrite (handshakeResponse now), .newTLSSocket] ∧
    handshakeResponse now =
      ("GURT/1.0.0 101 SWITCHING_PROTOCOLS\r\ngurt-version: 1.0.0\r\n".toList ++
        "encryption: TLS/1.3\r\nalpn: GURT/1.0\r\nserver: GURT/1.0.0\r\ndate: ".toList) ++
        now ++ "\r\n\r\n".toList := by
  have key : ∀ buffer data, buffer ++ data = handshakeRequest headerLines →
      (onSocketData buffer data now : SocketOutcome H)
        = { buffer := [], upgraded := true,
            effects := [.socketWrite (handshakeResponse now), .newTLSSocket] } := by
    intro buffer data h
    apply onSocketData_accept
    · rw [h]; exact handshakeRequest_term headerLines
    · rw [h]; exact handshakeRequest_start headerLines
  refine ⟨key, ?_, ?_⟩
  · simp [run, step, Conn.fresh, key [] (handshakeRequest headerLines) rfl]
  · unfold handshakeResponse
    have : "GURT/1.0.0 101 SWITCHING_PROTOCOLS\r\n".toList ++ "gurt-version: 1.0.0\r\n".toList ++
        "encryption: TLS/1.3\r\n".toList ++ "alpn: GURT/1.0\r\n".toList ++
        "server: GURT/1.0.0\r\n".toList ++ "date: ".toList
        = "GURT/1.0.0 101 SWITCHING_PROTOCOLS\r\ngurt-version: 1.0.0\r\n".toList ++
          "encryption: TLS/1.3\r\nalpn: GURT/1.0\r\nserver: GURT/1.0.0\r\ndate: ".toList := by
      decide
    rw [this]

/-- C2, at a concrete input: the request with the header line `host: x`,
delivered in two pieces. -/
theorem handshake_accepted_witness :
    (onSocketData "HANDSHAKE / GURT/1.0.0\r\nho".toList "st: x\r\n\r\n".toList someDate :
        SocketOutcome Nat)
      = { buffer := [], upgraded := true,
          effects := [.socketWrite (handshakeResponse someDate), .newTLSSocket] } :=
  (handshake_accepted quietEnv [] ["host: x".toList] someDate).1
    "HANDSHAKE / GURT/1.0.0\r\nho".toList "st: x\r\n\r\n".toList (by decide)

/-! ## Chunking of the handshake -/

theorem run_append {H : Type} (env : Env H) (routes : JSObject H) (c : Conn H)
    (e1 e2 : List Event) :
    run env routes c (e1 ++ e2) = run env routes (run env routes c e1) e2 := by
  simp [run, List.foldl_append]

theorem run_socket_quiet {H : Type} (env : Env H) (routes : JSObject H)
    (chunks : List (Str × Str)) (c : Conn H) (hh : c.halted = false)
    (h : includes TERMINATOR (c.buffer ++ (chunks.map Prod.fst).flatten) = false) :
    run env routes c (socketEvents chunks)
      = { c with buffer := c.buffer ++ (chunks.map Prod.fst).flatten } := by
  induction chunks generalizing c with
  | nil => simp [run, socketEvents]
  | cons p rest ih =>
    have h1 : includes TERMINATOR (c.buffer ++ p.1) = false := by
      cases hq : includes TERMINATOR (c.buffer ++ p.1) with
      | false => rfl
      | true =>
        have := includes_append_left TERMINATOR _ ((rest.map Prod.fst).flatten) hq
        simp only [List.map_cons, List.flatten_cons] at h
        rw [List.append_assoc, h] at this
        exact Bool.noConfusion this
    have hstep : step env routes c (Event.socketData p.1 p.2)
        = { c with buffer := c.buffer ++ p.1 } := by
      simp [step, onSocketData_quiet c.buffer p.1 p.2 h1]
    have hrun : run env routes c (socketEvents (p :: rest))
        = run env routes (step env routes c (Event.socketData p.1 p.2)) (socketEvents rest) := by
      simp [run, socketEvents, hh]
    rw [hrun, hstep, ih { c with buffer := c.buffer ++ p.1 } hh
      (by simpa [List.append_assoc] using h)]
    simp [List.append_assoc]

/-- C10: let the text `s` end with its first occurrence of the terminator, and
let it be cut into chunks, the last one not empty, delivered as successive raw
data events on a fresh connection.  Before the last chunk nothing is written,
destroyed or upgraded; after the last chunk the connection is in the same state,
with the same effects, as when `s` arrives as a single chunk: either the 101
answer was written and the TLS socket created, or the socket was destroyed and
nothing written. -/
theorem handshake_chunking {H : Type} (env : Env H) (routes : JSObject H) (s : Str)
    (chunks : List (Str × Str)) (last now : Str)
    (hterm : includes TERMINATOR s = true)
    (hfirst : ∀ p, p <+: s → p ≠ s → includes TERMINATOR p = false)
    (hlast : last ≠ [])
    (hcut : (chunks.map Prod.fst).flatten ++ last = s) :
    (run env routes Conn.fresh (socketEvents chunks)).trace = [] ∧
    (run env routes Conn.fresh (socketEvents chunks)).tls = false ∧
    run env routes Conn.fresh (socketEvents chunks ++ [Event.socketData last now])
      = run env routes Conn.fresh [Event.socketData s now] ∧
    ((run env routes Conn.fresh [Event.socketData s now]).trace
        = [.socketWrite (handshakeResponse now), .newTLSSocket] ∨
      (run env routes Conn.fresh [Event.socketData s now]).trace = [.socketDestroy]) := by
  have hpre : includes TERMINATOR ((chunks.map Prod.fst).flatten) = false := by
    apply hfirst
    · exact ⟨last, hcut⟩
    · intro h
      rw [h] at hcut
      exact hlast (List.append_right_eq_self.mp hcut)
  have hq := run_socket_quiet env routes chunks (Conn.fresh : Conn H) rfl
    (by simpa [Conn.fresh] using hpre)
  refine ⟨by rw [hq]; rfl, by rw [hq]; rfl, ?_, ?_⟩
  · rw [run_append, hq]
    simp [run, step, Conn.fresh, onSocketData, hcut]
  · cases hs : startsWith HANDSHAKE_START s with
    | true =>
      left
      simp [run, step, Conn.fresh, onSocketData, hterm, hs]
    | false =>
      right
      simp [run, step, Conn.fresh, onSocketData, hterm, hs]

/-- C10, at a concrete input: a valid handshake cut into three chunks. -/
theorem handshake_chunking_witness :
    run quietEnv [] Conn.fresh (socketEvents [("HANDSH".toList, someDate),
        ("AKE / GURT/1.0.0\r".toList, someDate)] ++ [Event.socketData "\n\r\n".toList someDate])
      = run quietEnv [] Conn.fresh [Event.socketData "HANDSHAKE / GURT/1.0.0\r\n\r\n".toList someDate] :=
  (handshake_chunking quietEnv [] "HANDSHAKE / GURT/1.0.0\r\n\r\n".toList
    [("HANDSH".toList, someDate), ("AKE / GURT/1.0.0\r".toList, someDate)] "\n\r\n".toList someDate
    (by decide)
    (by
      intro p hp hne
      have hlen : p.length < 26 := by
        have h1 := hp.length_le
        have h2 : p.length ≠ 26 := fun h => hne (hp.eq_of_length h)
        have h3 : ("HANDSHAKE / GURT/1.0.0\r\n\r\n".toList).length = 26 := by decide
        omega
      have hp2 : p = ("HANDSHAKE / GURT/1.0.0\r\n\r\n".toList).take p.length :=
        List.prefix_iff_eq_take.mp hp
      rw [hp2]
      generalize p.length = n at hlen
      revert n
      decide)
    (by decide) (by decide)).2.2.1

/-! ## No dispatch before the handshake -/

theorem handshakeDone_append {H : Type} (t u : List (Effect H)) (h : handshakeDone t) :
    handshakeDone (t ++ u) := by
  obtain ⟨a, b, now, rfl⟩ := h
  exact ⟨a, b ++ u, now, by simp⟩

theorem guarded_append_done {H : Type} (t u : List (Effect H))
    (hg : ∀ pre e post, t = pre ++ e :: post → e.isDispatch = true → handshakeDone pre)
    (hd : handshakeDone t) :
    ∀ pre e post, t ++ u = pre ++ e :: post → e.isDispatch = true → handshakeDone pre := by
  intro pre e post h he
  rcases List.append_eq_append_iff.mp h with ⟨a, rfl, _⟩ | ⟨c, rfl, hc⟩
  · exact handshakeDone_append _ _ hd
  · cases c with
    | nil => simpa using hd
    | cons x c =>
      simp only [List.cons_append, List.cons.injEq] at hc
      obtain ⟨rfl, _⟩ := hc
      exact hg pre e c rfl he

theorem guarded_append_other {H : Type} (t u : List (Effect H))
    (hg : ∀ pre e post, t = pre ++ e :: post → e.isDispatch = true → handshakeDone pre)
    (hu : ∀ e ∈ u, e.isDispatch = false) :
    ∀ pre e post, t ++ u = pre ++ e :: post → e.isDispatch = true → handshakeDone pre := by
  intro pre e post h he
  rcases List.append_eq_append_iff.mp h with ⟨a, _, ha⟩ | ⟨c, rfl, hc⟩
  · have := hu e (by rw [ha]; simp)
    rw [he] at this; exact Bool.noConfusion this
  · cases c with
    | nil =>
      have := hu e (by rw [List.nil_append] at hc; rw [← hc]; simp)
      rw [he] at this; exact Bool.noConfusion this
    | cons x c =>
      simp only [List.cons_append, List.cons.injEq] at hc
      obtain ⟨rfl, _⟩ := hc
      exact hg pre e c rfl he

theorem onSocketData_cases {H : Type} (buffer data now : Str) :
    ((onSocketData buffer data now : SocketOutcome H).upgraded = false ∧
      ((onSocketData buffer data now : SocketOutcome H).effects = [] ∨
        (onSocketData buffer data now : SocketOutcome H).effects = [.socketDestroy])) ∨
    ((onSocketData buffer data now : SocketOutcome H).upgraded = true ∧
      (onSocketData buffer data now : SocketOutcome H).effects
        = [.socketWrite (handshakeResponse now), .newTLSSocket]) := by
  unfold onSocketData
  simp only
  split
  · split
    · right; exact ⟨rfl, rfl⟩
    · left; exact ⟨rfl, Or.inr rfl⟩
  · left; exact ⟨rfl, Or.inl rfl⟩

theorem step_guarded {H : Type} (env : Env H) (routes : JSObject H) (c : Conn H) (ev : Event)
    (h1 : c.tls = true → handshakeDone c.trace)
    (h2 : ∀ pre e post, c.trace = pre ++ e :: post → e.isDispatch = true → handshakeDone pre) :
    ((step env routes c ev).tls = true → handshakeDone (step env routes c ev).trace) ∧
    ∀ pre e post, (step env routes c ev).trace = pre ++ e :: post → e.isDispatch = true →
      handshakeDone pre := by
  cases ev with
  | socketData data now =>
    simp only [step]
    rcases onSocketData_cases (H := H) c.buffer data now with ⟨hu, he⟩ | ⟨_, he⟩
    · have hnd : ∀ e ∈ (onSocketData c.buffer data now : SocketOutcome H).effects,
          e.isDispatch = false := by
        rcases he with he | he <;> rw [he] <;> simp [Effect.isDispatch]
      refine ⟨?_, guarded_append_other _ _ h2 hnd⟩
      intro ht
      rw [hu, Bool.or_false] at ht
      exact handshakeDone_append _ _ (h1 ht)
    · have hnd : ∀ e ∈ (onSocketData c.buffer data now : SocketOutcome H).effects,
          e.isDispatch = false := by
        rw [he]; simp [Effect.isDispatch]
      refine ⟨?_, guarded_append_other _ _ h2 hnd⟩
      intro _
      rw [he]
      exact ⟨c.trace, [], now, rfl⟩
  | tlsData data now =>
    simp only [step]
    split
    · rename_i ht
      exact ⟨fun _ => handshakeDone_append _ _ (h1 ht), guarded_append_done _ _ h2 (h1 ht)⟩
    · exact ⟨h1, h2⟩
  | tlsError =>
    simp only [step]
    split
    · rename_i ht
      exact ⟨fun _ => handshakeDone_append _ _ (h1 ht), guarded_append_done _ _ h2 (h1 ht)⟩
    · exact ⟨h1, h2⟩

theorem run_guarded {H : Type} (env : Env H) (routes : JSObject H) (events : List Event)
    (c : Conn H) (h1 : c.tls = true → handshakeDone c.trace)
    (h2 : ∀ pre e post, c.trace = pre ++ e :: post → e.isDispatch = true → handshakeDone pre) :
    ∀ pre e post, (run env routes c events).trace = pre ++ e :: post → e.isDispatch = true →
      handshakeDone pre := by
  induction events generalizing c with
  | nil => simpa [run] using h2
  | cons ev rest ih =>
    have hrun : run env routes c (ev :: rest)
        = run env routes (if c.halted then c else step env routes c ev) rest := by
      simp [run]
    rw [hrun]
    split
    · exact ih c h1 h2
    · exact ih _ (step_guarded env routes c ev h1 h2).1 (step_guarded env routes c ev h1 h2).2

/-- C3: for every sequence of raw-socket and TLS-socket events on a fresh
connection, whenever a dispatch (a route handler call or a not-found answer)
occurs in the trace, the effects before it contain the 101 answer followed by
the creation of the TLS socket, which only a successful handshake on the raw
socket produces. -/
theorem no_dispatch_before_handshake {H : Type} (env : Env H) (routes : JSObject H)
    (events : List Event) (pre post : List (Effect H)) (e : Effect H)
    (h : (run env routes Conn.fresh events).trace = pre ++ e :: post)
    (he : e.isDispatch = true) :
    handshakeDone pre :=
  run_guarded env routes events Conn.fresh (fun h => Bool.noConfusion h)
    (fun pre e post h _ => by simp [Conn.fresh] at h) pre e post h he

/-- C3, at a concrete input: a request sent before any handshake is not
dispatched, and the one sent after the handshake is. -/
theorem no_dispatch_before_handshake_witness :
    handshakeDone [(.socketWrite (handshakeResponse someDate) : Effect Nat), .newTLSSocket] :=
  no_dispatch_before_handshake quietEnv []
    [.tlsData "GET /\r\n\r\n".toList someDate,
     .socketData "HANDSHAKE / GURT/1.0.0\r\n\r\n".toList someDate,
     .tlsData "GET /\r\n\r\n".toList someDate]
    [.socketWrite (handshakeResponse someDate), .newTLSSocket]
    [] (.tlsWrite (notFoundResponse someDate)) (by decide) (by decide)

/-! ## Dispatch -/

/-- C8: for every route table and every chunk whose route key has no registered
handler, the data handler of the TLS socket writes exactly one answer, the fixed
404 text with the current date; its content-length is the UTF-8 byte length of
the body `Not Found`; no handler is called and nothing is destroyed, and the
connection is left as it was, open for further chunks. -/
theorem not_found_response {H : Type} (env : Env H) (routes : JSObject H) (data now : Str)
    (h : routes.get (routeKey env.case (parseRequest env.case data)) = none) :
    onTlsData env routes data now
      = { effects := [.tlsWrite (notFoundResponse now)], raised := false } ∧
    notFoundResponse now =
      ("GURT/1.0.0 404 Not Found\r\ncontent-type: text/plain\r\n".toList ++
        "content-length: 9\r\nserver: GURT/1.0.0\r\ndate: ".toList) ++ now ++
        "\r\n\r\nNot Found".toList ∧
    numberText (byteLength "Not Found".toList) = "9".toList ∧
    ∀ c : Conn H, c.tls = true → c.halted = false →
      run env routes c [.tlsData data now]
        = { c with trace := c.trace ++ [.tlsWrite (notFoundResponse now)] } := by
  have h1 : onTlsData env routes data now
      = { effects := [.tlsWrite (notFoundResponse now)], raised := false } := by
    simp [onTlsData, h]
  refine ⟨h1, ?_, by decide, ?_⟩
  · have hx : "GURT/1.0.0 404 Not Found\r\n".toList ++ "content-type: text/plain\r\n".toList ++
        "content-length: ".toList ++ numberText (byteLength resBody) ++ "\r\n".toList ++
        "server: GURT/1.0.0\r\n".toList ++ "date: ".toList
        = "GURT/1.0.0 404 Not Found\r\ncontent-type: text/plain\r\n".toList ++
          "content-length: 9\r\nserver: GURT/1.0.0\r\ndate: ".toList := by decide
    have ht : "\r\n\r\n".toList ++ resBody = "\r\n\r\nNot Found".toList := by decide
    unfold notFoundResponse
    rw [hx, List.append_assoc _ "\r\n\r\n".toList resBody, ht]
  · intro c hc hh
    simp [run, step, hc, hh, h1]

/-- C8, at a concrete input: `POST /` when only `GET /` is registered. -/
theorem not_found_response_witness :
    onTlsData quietEnv (route asciiCase [] "GET".toList "/".toList 1)
        "POST /\r\n\r\n".toList someDate
      = { effects := [.tlsWrite (notFoundResponse someDate)], raised := false } :=
  (not_found_response quietEnv (route asciiCase [] "GET".toList "/".toList 1)
    "POST /\r\n\r\n".toList someDate (by decide)).1

/-- C9 (counterexample): with a handler registered for `GET /` that raises, the
data handler of the TLS socket does not contain the fault on the request
`GET /`: the exception leaves the callback, the only effect is the call itself
(no server-fault answer is written), and the connection serves nothing after
it. -/
theorem handler_fault_not_contained :
    onTlsData faultyEnv (route asciiCase [] "GET".toList "/".toList 1)
        "GET /\r\n\r\n".toList someDate
      = { effects := [.handlerCall 1 (parseRequest asciiCase "GET /\r\n\r\n".toList)],
          raised := true } ∧
    run faultyEnv (route asciiCase [] "GET".toList "/".toList 1) Conn.fresh
        [.socketData "HANDSHAKE / GURT/1.0.0\r\n\r\n".toList someDate,
         .tlsData "GET /\r\n\r\n".toList someDate, .tlsData "GET /\r\n\r\n".toList someDate]
      = { buffer := [], tls := true, halted := true,
          trace := [.socketWrite (handshakeResponse someDate), .newTLSSocket,
            .handlerCall 1 (parseRequest asciiCase "GET /\r\n\r\n".toList)] } := by
  decide

/-- C9 (amended): when the handler registered for the route key of a chunk
raises on the parsed request, the data handler of the TLS socket calls it once
and does nothing else: it writes nothing, destroys nothing, and does not catch
the fault, which leaves the callback. -/
theorem handler_fault_propagates {H : Type} (env : Env H) (routes : JSObject H)
    (data now : Str) (handler : H)
    (hreg : routes.get (routeKey env.case (parseRequest env.case data)) = some handler)
    (hraise : env.raises handler (parseRequest env.case data) = true) :
    onTlsData env routes data now
      = { effects := [.handlerCall handler (parseRequest env.case data)], raised := true } := by
  simp [onTlsData, hreg, hraise]

/-- C9 (amended), at a concrete input. -/
theorem handler_fault_propagates_witness :
    onTlsData faultyEnv (route asciiCase [] "GET".toList "/".toList 1)
        "GET /\r\n\r\n".toList someDate
      = { effects := [.handlerCall 1 (parseRequest faultyEnv.case "GET /\r\n\r\n".toList)],
          raised := true } :=
  handler_fault_propagates faultyEnv (route asciiCase [] "GET".toList "/".toList 1)
    "GET /\r\n\r\n".toList someDate 1 (by decide) (by decide)

/-! ## Route registration and lookup -/

theorem key_ne_proto (u p : Str) : u ++ " ".toList ++ p ≠ PROTO := by
  intro h
  have hm : ' ' ∈ u ++ " ".toList ++ p := by simp
  rw [h] at hm
  revert hm
  decide

theorem get_set_same {α : Type} (o : JSObject α) (k : Str) (v : α) (hk : k ≠ PROTO) :
    (o.set k v).get k = some v := by
  simp [JSObject.set, JSObject.get, hk, List.lookup]

theorem get_set_other {α : Type} (o : JSObject α) (k k2 : Str) (v : α) (h : k2 ≠ k) :
    (o.set k v).get k2 = o.get k2 := by
  unfold JSObject.set JSObject.get
  split
  · rfl
  · have : (k2 == k) = false := by simpa using h
    simp [List.lookup, this]

theorem get_route_same {H : Type} (cm : CaseMap) (routes : JSObject H) (m p : Str) (h : H) :
    (route cm routes m p h).get (cm.toUpperCase m ++ " ".toList ++ p) = some h :=
  get_set_same routes _ h (key_ne_proto _ _)

theorem get_registerAll {H : Type} (cm : CaseMap) (later : List (Str × Str × H))
    (routes : JSObject H) (key : Str) (h : H) (hget : routes.get key = some h)
    (hl : ∀ x ∈ later, cm.toUpperCase x.1 ++ " ".toList ++ x.2.1 ≠ key) :
    (registerAll cm routes later).get key = some h := by
  induction later generalizing routes with
  | nil => simpa [registerAll] using hget
  | cons x rest ih =>
    have hx : cm.toUpperCase x.1 ++ " ".toList ++ x.2.1 ≠ key := hl x (List.mem_cons_self _ _)
    have hstep : (route cm routes x.1 x.2.1 x.2.2).get key = some h := by
      unfold route
      rw [get_set_other _ _ _ _ (Ne.symm hx), hget]
    have := ih (route cm routes x.1 x.2.1 x.2.2) hstep
      (fun y hy => hl y (List.mem_cons_of_mem _ hy))
    simpa [registerAll] using this

theorem append_sep_inj (c : Char) (x y x2 y2 : Str) (hx : c ∉ x) (hx2 : c ∉ x2)
    (h : x ++ c :: y = x2 ++ c :: y2) : x = x2 := by
  induction x generalizing x2 with
  | nil =>
    cases x2 with
    | nil => rfl
    | cons d t =>
      simp only [List.nil_append, List.cons_append, List.cons.injEq] at h
      exact absurd (by rw [h.1]; simp) hx2
  | cons d t ih =>
    cases x2 with
    | nil =>
      simp only [List.nil_append, List.cons_append, List.cons.injEq] at h
      exact absurd (by rw [h.1]; simp) hx
    | cons d2 t2 =>
      simp only [List.cons_append, List.cons.injEq] at h
      rw [h.1, ih t2 (fun hm => hx (List.mem_cons_of_mem _ hm))
        (fun hm => hx2 (List.mem_cons_of_mem _ hm)) h.2]

/-- Two route keys with space-free paths are equal only when the paths are. -/
theorem key_path_inj (u u2 p p2 : Str) (hp : ' ' ∉ p) (hp2 : ' ' ∉ p2)
    (h : u ++ " ".toList ++ p = u2 ++ " ".toList ++ p2) : p = p2 := by
  have hr := congrArg List.reverse h
  have hs : " ".toList = [' '] := by decide
  simp only [hs, List.reverse_append, List.reverse_cons, List.reverse_nil, List.nil_append,
    List.append_assoc, List.singleton_append] at hr
  have := append_sep_inj ' ' p.reverse u.reverse p2.reverse u2.reverse
    (by simpa using hp) (by simpa using hp2) hr
  simpa using congrArg List.reverse this

theorem split_startLine (m p rest : Str) (hm : plainToken m) (hp : plainToken p) :
    split CRLF (m ++ " ".toList ++ p ++ CRLF ++ rest) = (m ++ " ".toList ++ p) :: split CRLF rest ∧
    split " ".toList (m ++ " ".toList ++ p) = [m, p] := by
  have hs : " ".toList = [' '] := by decide
  have hline : ∀ c ∈ m ++ " ".toList ++ p, c ≠ '\r' := by
    intro c hc
    simp only [List.mem_append] at hc
    rcases hc with (hc | hc) | hc
    · exact (hm c hc).2.1
    · rw [hs] at hc
      have : c = ' ' := by simpa using hc
      rw [this]; decide
    · exact (hp c hc).2.1
  refine ⟨?_, ?_⟩
  · rw [CRLF_eq, List.append_assoc (m ++ " ".toList ++ p)]
    exact split_piece '\r' ['\n'] _ rest hline
  · rw [hs, List.append_assoc, split_piece ' ' [] m p (fun c hc => (hm c hc).1),
      split_single ' ' [] p (fun c hc => (hp c hc).1)]

/-- The start line `m p` of a chunk is read back as method `m` and path `p`. -/
theorem parse_startLine (cm : CaseMap) (m p rest : Str) (hm : plainToken m) (hp : plainToken p) :
    (parseRequest cm (m ++ " ".toList ++ p ++ CRLF ++ rest)).method = m ∧
    (parseRequest cm (m ++ " ".toList ++ p ++ CRLF ++ rest)).path = some p := by
  obtain ⟨h1, h2⟩ := split_startLine m p rest hm hp
  unfold parseRequest
  simp only
  rw [h1, List.headD_cons, h2]
  exact ⟨rfl, rfl⟩

theorem routeKey_startLine (cm : CaseMap) (m p rest : Str) (hm : plainToken m)
    (hp : plainToken p) :
    routeKey cm (parseRequest cm (m ++ " ".toList ++ p ++ CRLF ++ rest))
      = cm.toUpperCase m ++ " ".toList ++ p := by
  obtain ⟨h1, h2⟩ := parse_startLine cm m p rest hm hp
  unfold routeKey pathText
  rw [h1, h2]
  rfl

theorem onTlsData_found {H : Type} (env : Env H) (routes : JSObject H) (data now : Str) (h : H)
    (hget : routes.get (routeKey env.case (parseRequest env.case data)) = some h) :
    onTlsData env routes data now
      = { effects := [.handlerCall h (parseRequest env.case data)],
          raised := env.raises h (parseRequest env.case data) } := by
  simp [onTlsData, hget]

theorem onTlsData_none {H : Type} (env : Env H) (routes : JSObject H) (data now : Str)
    (hget : routes.get (routeKey env.case (parseRequest env.case data)) = none) :
    onTlsData env routes data now
      = { effects := [.tlsWrite (notFoundResponse now)], raised := false } := by
  simp [onTlsData, hget]

/-- C7: let `m2`, `p` be plain tokens and `m2` upper-case to the same text as
`m`.  After `route(m, p, h)`, and any later registrations under other keys, a
chunk with the start line `m2 p` is dispatched to `h` exactly once and no
not-found answer is written; a chunk with any other path does not reach `h`
(when `h` was not registered before); and a second `route` call for the same
normalized key makes its handler the one that is called. -/
theorem route_lookup {H : Type} (env : Env H) (routes : JSObject H) (h : H) (m m2 p : Str)
    (hm2 : plainToken m2) (hp : plainToken p)
    (hup : env.case.toUpperCase m2 = env.case.toUpperCase m) :
    (∀ (later : List (Str × Str × H)) (rest now : Str),
      (∀ x ∈ later, env.case.toUpperCase x.1 ++ " ".toList ++ x.2.1
        ≠ env.case.toUpperCase m ++ " ".toList ++ p) →
      onTlsData env (registerAll env.case (route env.case routes m p h) later)
          (m2 ++ " ".toList ++ p ++ CRLF ++ rest) now
        = { effects := [.handlerCall h
              (parseRequest env.case (m2 ++ " ".toList ++ p ++ CRLF ++ rest))],
            raised := env.raises h
              (parseRequest env.case (m2 ++ " ".toList ++ p ++ CRLF ++ rest)) }) ∧
    (∀ (m3 p3 rest now : Str), plainToken m3 → plainToken p3 → p3 ≠ p →
      (∀ k, routes.get k ≠ some h) →
      ∀ req, Effect.handlerCall h req ∉
        (onTlsData env (route env.case routes m p h)
          (m3 ++ " ".toList ++ p3 ++ CRLF ++ rest) now).effects) ∧
    (∀ (h2 : H) (m3 rest now : Str), env.case.toUpperCase m3 = env.case.toUpperCase m →
      onTlsData env (route env.case (route env.case routes m p h) m3 p h2)
          (m2 ++ " ".toList ++ p ++ CRLF ++ rest) now
        = { effects := [.handlerCall h2
              (parseRequest env.case (m2 ++ " ".toList ++ p ++ CRLF ++ rest))],
            raised := env.raises h2
              (parseRequest env.case (m2 ++ " ".toList ++ p ++ CRLF ++ rest)) }) := by
  refine ⟨?_, ?_, ?_⟩
  · intro later rest now hl
    apply onTlsData_found
    rw [routeKey_startLine env.case m2 p rest hm2 hp, hup]
    exact get_registerAll env.case later _ _ h (get_route_same env.case routes m p h) hl
  · intro m3 p3 rest now hm3 hp3 hne hfresh req hmem
    have hkey : env.case.toUpperCase m3 ++ " ".toList ++ p3
        ≠ env.case.toUpperCase m ++ " ".toList ++ p := by
      intro hk
      exact hne (key_path_inj _ _ _ _ (fun hc => (hp3 _ hc).1 rfl) (fun hc => (hp _ hc).1 rfl) hk)
    have hget : (route env.case routes m p h).get
        (routeKey env.case (parseRequest env.case (m3 ++ " ".toList ++ p3 ++ CRLF ++ rest)))
        = routes.get (env.case.toUpperCase m3 ++ " ".toList ++ p3) := by
      rw [routeKey_startLine env.case m3 p3 rest hm3 hp3]
      exact get_set_other _ _ _ _ hkey
    cases hr : routes.get (env.case.toUpperCase m3 ++ " ".toList ++ p3) with
    | none =>
      rw [hr] at hget
      rw [onTlsData_none env _ _ now hget] at hmem
      simp at hmem
    | some h3 =>
      rw [hr] at hget
      rw [onTlsData_found env _ _ now h3 hget] at hmem
      simp only [List.mem_singleton, Effect.handlerCall.injEq] at hmem
      exact hfresh _ (by rw [hr, hmem.1])
  · intro h2 m3 rest now hup3
    apply onTlsData_found
    rw [routeKey_startLine env.case m2 p rest hm2 hp, hup, ← hup3]
    exact get_route_same env.case _ m3 p h2

/-- C7, at a concrete input: `get` registered, `GET` requested. -/
theorem route_lookup_witness :
    onTlsData quietEnv (registerAll quietEnv.case
        (route quietEnv.case [] "get".toList "/".toList 1) [])
        ("GET".toList ++ " ".toList ++ "/".toList ++ CRLF ++ "\r\n".toList) someDate
      = { effects := [.handlerCall 1 (parseRequest quietEnv.case
            ("GET".toList ++ " ".toList ++ "/".toList ++ CRLF ++ "\r\n".toList))],
          raised := quietEnv.raises 1 (parseRequest quietEnv.case
            ("GET".toList ++ " ".toList ++ "/".toList ++ CRLF ++ "\r\n".toList)) } :=
  (route_lookup quietEnv [] 1 "get".toList "GET".toList "/".toList
    (by unfold plainToken; decide) (by unfold plainToken; decide) (by decide)).1 [] "\r\n".toList someDate (by simp)

/-! ## Splitting and joining -/

theorem join_cons_cons (sep a b : Str) (t : List Str) :
    join sep (a :: b :: t) = a ++ sep ++ join sep (b :: t) := by
  simp [join, List.intercalate, List.intersperse]

theorem join_splitGo (a : Char) (s : Str) (t : Str) (k : Nat) (cur : Str) :
    join (a :: s) (splitGo (a :: s) t k cur) = cur.reverse ++ t.drop k := by
  induction t generalizing k cur with
  | nil => simp [splitGo, join, List.intercalate, List.intersperse]
  | cons c cs ih =>
    cases k with
    | succ k => simpa [splitGo] using ih k cur
    | zero =>
      rw [splitGo]
      split
      · rename_i hp
        obtain ⟨x, u, hx⟩ := splitGo_head (a :: s) cs ((a :: s).length - 1) []
        have hj := ih ((a :: s).length - 1) []
        rw [hx] at hj
        rw [hx, join_cons_cons, hj]
        rw [List.isPrefixOf_iff_prefix] at hp
        obtain ⟨r, hr⟩ := hp
        simp only [List.cons_append, List.cons.injEq] at hr
        obtain ⟨rfl, hr⟩ := hr
        subst hr
        simp
      · have := ih 0 (c :: cur)
        simpa using this

/-- Joining the pieces of a split gives the text back. -/
theorem join_split (a : Char) (s t : Str) : join (a :: s) (split (a :: s) t) = t := by
  unfold split
  simpa using join_splitGo a s t 0 []

theorem split_lines (lines : List Str) (rest : Str) (h : ∀ l ∈ lines, ∀ c ∈ l, c ≠ '\r') :
    split CRLF ((lines.map (fun l => l ++ CRLF)).flatten ++ rest) = lines ++ split CRLF rest := by
  induction lines with
  | nil => simp
  | cons l t ih =>
    have hl : ∀ c ∈ l, c ≠ '\r' := h l (List.mem_cons_self _ _)
    have ht := ih (fun x hx => h x (List.mem_cons_of_mem _ hx))
    simp only [List.map_cons, List.flatten_cons, List.append_assoc, List.cons_append]
    rw [CRLF_eq] at ht ⊢
    rw [split_piece '\r' ['\n'] l _ hl, ht]

/-! ## Header lines -/

theorem colon_parts (line : Str) :
    headerKey line = beforeColon line ∧ headerRest line = afterColon line := by
  have hc : ":".toList = [':'] := by decide
  have htw : ∀ c ∈ line.takeWhile (fun c => c != ':'), c ≠ ':' := by
    intro c hc
    simpa using List.mem_takeWhile_imp hc
  have hsplit : line = line.takeWhile (fun c => c != ':') ++ line.dropWhile (fun c => c != ':') :=
    (List.takeWhile_append_dropWhile _ _).symm
  unfold headerKey headerRest beforeColon afterColon
  cases hd : line.dropWhile (fun c => c != ':') with
  | nil =>
    rw [hd, List.append_nil] at hsplit
    rw [← hsplit] at htw ⊢
    rw [hc, split_single ':' [] line htw]
    exact ⟨rfl, rfl⟩
  | cons d r =>
    have hdc : d = ':' := by
      have := List.head_dropWhile_not (fun c => c != ':') line (by rw [hd]; simp)
      simpa [hd] using this
    subst hdc
    rw [hd] at hsplit
    have e : split [':'] line = line.takeWhile (fun c => c != ':') :: split [':'] r := by
      conv_lhs => rw [hsplit]
      exact split_piece ':' [] _ r htw
    rw [hc, e]
    refine ⟨rfl, ?_⟩
    simp only [List.tail_cons, List.drop_succ_cons, List.drop_zero]
    exact join_split ':' [] r

/-! ## The parsing loop -/

theorem parseLine_blank (cm : CaseMap) (st : ParseState) :
    parseLine cm st [] = { st with isBody := true } := by
  simp [parseLine]

theorem parseLine_header (cm : CaseMap) (st : ParseState) (l : Str) (hl : l ≠ [])
    (hb : st.isBody = false) :
    parseLine cm st l
      = { st with
          headers := st.headers.set (cm.toLowerCase (beforeColon l)) (trim (afterColon l)) } := by
  simp [parseLine, hl, hb, (colon_parts l).1, (colon_parts l).2]

theorem parseLine_body (cm : CaseMap) (st : ParseState) (l : Str) (hl : l ≠ [])
    (hb : st.isBody = true) :
    parseLine cm st l = { st with body := st.body ++ l ++ "\n".toList } := by
  simp [parseLine, hl, hb]

theorem fold_headers (cm : CaseMap) (lines : List Str) (st : ParseState)
    (hb : st.isBody = false) (h : ∀ l ∈ lines, l ≠ []) :
    lines.foldl (parseLine cm) st
      = { st with headers := lines.foldl (fun (o : JSObject Str) l =>
            o.set (cm.toLowerCase (beforeColon l)) (trim (afterColon l))) st.headers } := by
  induction lines generalizing st with
  | nil => rfl
  | cons l t ih =>
    rw [List.foldl_cons, parseLine_header cm st l (h l (List.mem_cons_self _ _)) hb,
      ih { st with
           headers := st.headers.set (cm.toLowerCase (beforeColon l)) (trim (afterColon l)) }
        hb (fun x hx => h x (List.mem_cons_of_mem _ hx))]
    rfl

theorem fold_body (cm : CaseMap) (lines : List Str) (st : ParseState) (hb : st.isBody = true) :
    lines.foldl (parseLine cm) st = { st with body := st.body ++ bodyOfLines lines } := by
  induction lines generalizing st with
  | nil => simp [bodyOfLines]
  | cons l t ih =>
    rw [List.foldl_cons]
    by_cases hl : l = []
    · subst hl
      rw [parseLine_blank, ih { st with isBody := true } rfl]
      cases st
      simp only at hb
      simp [bodyOfLines, hb]
    · rw [parseLine_body cm st l hl hb, ih { st with body := st.body ++ l ++ "\n".toList } hb]
      simp [bodyOfLines, hl, List.append_assoc]


theorem parseLines_blank (cm : CaseMap) (hdrs bodyLines : List Str) (hh : ∀ l ∈ hdrs, l ≠ []) :
    parseLines cm (hdrs ++ [] :: bodyLines)
      = { headers := hdrs.foldl (fun (o : JSObject Str) l =>
            o.set (cm.toLowerCase (beforeColon l)) (trim (afterColon l))) [],
          body := bodyOfLines bodyLines, isBody := true } := by
  unfold parseLines
  rw [List.foldl_append, fold_headers cm hdrs _ rfl hh, List.foldl_cons, parseLine_blank,
    fold_body cm bodyLines _ rfl]
  simp

/-! ## The body -/

/-- C6 (counterexample): in the chunk `POST /submit`, blank line, `hello`, the
exact text after the first `"\r\n\r\n"` is `hello`, but the body handed to the
handler is `hello` followed by a line feed. -/
theorem body_not_exact_text :
    afterFirst TERMINATOR "POST /submit\r\n\r\nhello".toList = some "hello".toList ∧
    (parseRequest asciiCase "POST /submit\r\n\r\nhello".toList).body = "hello\n".toList ∧
    (parseRequest asciiCase "POST /submit\r\n\r\nhello".toList).body ≠ "hello".toList ∧
    onTlsData quietEnv (route asciiCase [] "POST".toList "/submit".toList 1)
        "POST /submit\r\n\r\nhello".toList someDate
      = { effects := [.handlerCall 1
            { request := "POST /submit\r\n\r\nhello".toList, headers := [],
              body := "hello\n".toList, method := "POST".toList,
              path := some "/submit".toList }],
          raised := false } := by
  decide

/-- C6 (amended): for every chunk whose lines (the pieces between `"\r\n"`) are
a start line, non-empty header lines, a blank line and then further lines, the
body handed to the handler is built from the lines after that first blank line:
each non-empty one followed by a line feed, the empty ones dropped.  (The chunk
itself is these lines joined by `"\r\n"`.) -/
theorem body_from_lines (cm : CaseMap) (chunk first : Str) (hdrs bodyLines : List Str)
    (hsplit : split CRLF chunk = first :: (hdrs ++ [] :: bodyLines))
    (hh : ∀ l ∈ hdrs, l ≠ []) :
    (parseRequest cm chunk).body = bodyOfLines bodyLines ∧
    chunk = join CRLF (first :: (hdrs ++ [] :: bodyLines)) := by
  refine ⟨?_, ?_⟩
  · unfold parseRequest
    simp only
    rw [hsplit, List.tail_cons, parseLines_blank cm hdrs bodyLines hh]
  · rw [← hsplit, CRLF_eq, join_split]

/-- C6 (amended), at a concrete input: a body of three lines, one of them
empty. -/
theorem body_from_lines_witness :
    (parseRequest asciiCase "POST /submit\r\nhost: x\r\n\r\nhello\r\n\r\nworld".toList).body
      = bodyOfLines ["hello".toList, [], "world".toList] :=
  (body_from_lines asciiCase "POST /submit\r\nhost: x\r\n\r\nhello\r\n\r\nworld".toList
    "POST /submit".toList ["host: x".toList] ["hello".toList, [], "world".toList]
    (by decide) (by decide)).1

/-! ## Frames and chunks -/

theorem fold_set_plain (cm : CaseMap) (lines : List Str) (init : JSObject Str)
    (h : ∀ l ∈ lines, cm.toLowerCase (beforeColon l) ≠ PROTO) :
    lines.foldl (fun (o : JSObject Str) l =>
        o.set (cm.toLowerCase (beforeColon l)) (trim (afterColon l))) init
      = lines.foldl (fun (o : JSObject Str) l =>
        (cm.toLowerCase (beforeColon l), trim (afterColon l)) :: o) init := by
  induction lines generalizing init with
  | nil => rfl
  | cons l t ih =>
    rw [List.foldl_cons, List.foldl_cons, ← ih _ (fun x hx => h x (List.mem_cons_of_mem _ hx))]
    simp [JSObject.set, h l (List.mem_cons_self _ _)]

/-- A well-formed frame without a header named `__proto__`, delivered as one
chunk, is parsed into its request. -/
theorem parse_frame (cm : CaseMap) (f : Frame) (hwf : f.wellFormed)
    (hproto : ∀ l ∈ f.headerLines, cm.toLowerCase (beforeColon l) ≠ PROTO) :
    parseRequest cm f.text = f.request cm := by
  obtain ⟨hm, hp, hl⟩ := hwf
  have htext : f.text = f.method ++ " ".toList ++ f.path ++ CRLF ++
      ((f.headerLines.map (fun l => l ++ CRLF)).flatten ++ CRLF) := by
    unfold Frame.text
    rw [List.append_assoc]
  have hend : split CRLF CRLF = [[], []] := by decide
  have hs : split CRLF f.text = (f.method ++ " ".toList ++ f.path) :: (f.headerLines ++ [] :: [[]]) := by
    rw [htext, (split_startLine f.method f.path _ hm hp).1,
      split_lines f.headerLines CRLF (fun l hx c hc => ((hl l hx).2 c hc).1), hend]
  have h3 := parseLines_blank cm f.headerLines [[]] (fun l hx => (hl l hx).1)
  unfold parseRequest
  simp only
  rw [hs, List.headD_cons, List.tail_cons, (split_startLine f.method f.path [] hm hp).2, h3,
    fold_set_plain cm f.headerLines [] hproto]
  rfl

theorem onTlsData_dispatch {H : Type} (env : Env H) (routes : JSObject H) (data now : Str)
    (hq : ∀ h, routes.get (routeKey env.case (parseRequest env.case data)) = some h →
      env.raises h (parseRequest env.case data) = false) :
    onTlsData env routes data now
      = { effects := [dispatchOf env.case routes (parseRequest env.case data) now],
          raised := false } := by
  cases hr : routes.get (routeKey env.case (parseRequest env.case data)) with
  | none => rw [onTlsData_none env routes data now hr]; simp [dispatchOf, hr]
  | some h => rw [onTlsData_found env routes data now h hr, hq h hr]; simp [dispatchOf, hr]

/-- C4 (counterexample): with `GET /` registered, two frames `GET /` and
`GET /b` that arrive in one chunk produce one dispatch, not two (the second
frame ends up in the body of the first request); and the frame
`GET /`, `host: x` cut into two chunks produces two dispatches, not one. -/
theorem framing_depends_on_chunking :
    (run quietEnv (route asciiCase [] "GET".toList "/".toList 1) Conn.fresh
        [.socketData "HANDSHAKE / GURT/1.0.0\r\n\r\n".toList someDate,
         .tlsData ((Frame.mk "GET".toList "/".toList []).text ++
            (Frame.mk "GET".toList "/b".toList []).text) someDate]).trace
      = [.socketWrite (handshakeResponse someDate), .newTLSSocket,
         .handlerCall 1
           { request := "GET /\r\n\r\nGET /b\r\n\r\n".toList, headers := [],
             body := "GET /b\n".toList, method := "GET".toList, path := some "/".toList }] ∧
    (Frame.mk "GET".toList "/".toList ["host: x".toList]).text
      = "GET /\r\nho".toList ++ "st: x\r\n\r\n".toList ∧
    (run quietEnv (route asciiCase [] "GET".toList "/".toList 1) Conn.fresh
        [.socketData "HANDSHAKE / GURT/1.0.0\r\n\r\n".toList someDate,
         .tlsData "GET /\r\nho".toList someDate, .tlsData "st: x\r\n\r\n".toList someDate]).trace
      = [.socketWrite (handshakeResponse someDate), .newTLSSocket,
         .handlerCall 1
           { request := "GET /\r\nho".toList, headers := [("ho".toList, [])],
             body := [], method := "GET".toList, path := some "/".toList },
         .tlsWrite (notFoundResponse someDate)] := by
  decide

/-- C4 (amended): framing is per chunk.  Every chunk handed to the data handler
of the TLS socket, whatever its content, produces exactly one dispatch; and
when every well-formed frame is delivered as one chunk of its own, no header is
named `__proto__` and no handler that is called raises, exactly one dispatch is
performed per frame, in order, each with that frame's method, path and headers,
and the connection stays as it was. -/
theorem one_dispatch_per_frame_chunk {H : Type} (env : Env H) (routes : JSObject H)
    (frames : List (Frame × Str)) (c : Conn H) (htls : c.tls = true) (hh : c.halted = false)
    (hwf : ∀ p ∈ frames, p.1.wellFormed)
    (hproto : ∀ p ∈ frames, ∀ l ∈ p.1.headerLines,
      env.case.toLowerCase (beforeColon l) ≠ PROTO)
    (hquiet : ∀ p ∈ frames, ∀ h,
      routes.get (routeKey env.case (p.1.request env.case)) = some h →
        env.raises h (p.1.request env.case) = false) :
    (∀ data now, ∃ e, (onTlsData env routes data now).effects = [e] ∧ e.isDispatch = true) ∧
    run env routes c (frameEvents frames)
      = { c with
          trace := c.trace ++
            frames.map (fun p => dispatchOf env.case routes (p.1.request env.case) p.2) } := by
  refine ⟨?_, ?_⟩
  · intro data now
    cases hr : routes.get (routeKey env.case (parseRequest env.case data)) with
    | none =>
      exact ⟨.tlsWrite (notFoundResponse now), by rw [onTlsData_none env routes data now hr], rfl⟩
    | some h =>
      exact ⟨.handlerCall h (parseRequest env.case data),
        by rw [onTlsData_found env routes data now h hr], rfl⟩
  induction frames generalizing c with
  | nil => simp [run, frameEvents]
  | cons p rest ih =>
    have hp := parse_frame env.case p.1 (hwf p (List.mem_cons_self _ _))
      (hproto p (List.mem_cons_self _ _))
    have hd := onTlsData_dispatch env routes p.1.text p.2
      (by rw [hp]; exact hquiet p (List.mem_cons_self _ _))
    rw [hp] at hd
    have hstep : step env routes c (Event.tlsData p.1.text p.2)
        = { c with
            trace := c.trace ++ [dispatchOf env.case routes (p.1.request env.case) p.2] } := by
      simp only [step, htls, if_true, hd]
      rw [← hh]
    have hrun : run env routes c (frameEvents (p :: rest))
        = run env routes (step env routes c (Event.tlsData p.1.text p.2)) (frameEvents rest) := by
      simp [run, frameEvents, hh]
    rw [hrun, hstep, ih
      { c with trace := c.trace ++ [dispatchOf env.case routes (p.1.request env.case) p.2] }
      htls hh
      (fun q hq => hwf q (List.mem_cons_of_mem _ hq))
      (fun q hq => hproto q (List.mem_cons_of_mem _ hq))
      (fun q hq => hquiet q (List.mem_cons_of_mem _ hq))]
    simp

/-- C4 (amended), at a concrete input: two frames, each in a chunk of its own,
after a handshake. -/
theorem one_dispatch_per_frame_chunk_witness :
    run quietEnv (route asciiCase [] "GET".toList "/".toList 1)
        { buffer := [], tls := true, halted := false, trace := [] }
        (frameEvents [(Frame.mk "GET".toList "/".toList ["Host: a:b".toList], someDate),
          (Frame.mk "POST".toList "/".toList [], someDate)])
      = { buffer := [], tls := true, halted := false,
          trace := [] ++ [(Frame.mk "GET".toList "/".toList ["Host: a:b".toList], someDate),
              (Frame.mk "POST".toList "/".toList [], someDate)].map
                (fun p => dispatchOf quietEnv.case (route asciiCase [] "GET".toList "/".toList 1)
                  (p.1.request quietEnv.case) p.2) } :=
  (one_dispatch_per_frame_chunk quietEnv (route asciiCase [] "GET".toList "/".toList 1)
    [(Frame.mk "GET".toList "/".toList ["Host: a:b".toList], someDate),
      (Frame.mk "POST".toList "/".toList [], someDate)]
    { buffer := [], tls := true, halted := false, trace := [] } rfl rfl
    (by unfold Frame.wellFormed plainToken; decide) (by decide) (by intro p _ h _; rfl)).2


/-! ## Parsed headers -/

theorem fold_keeps (cm : CaseMap) (k v : Str) (post : List Str) (st : ParseState)
    (hget : st.headers.get k = some v)
    (hl : st.isBody = false →
      ∀ l ∈ post.takeWhile (fun l => l != []), cm.toLowerCase (beforeColon l) ≠ k) :
    (post.foldl (parseLine cm) st).headers.get k = some v := by
  induction post generalizing st with
  | nil => simpa using hget
  | cons l t ih =>
    cases hb : st.isBody with
    | true => rw [fold_body cm (l :: t) st hb]; exact hget
    | false =>
      rw [List.foldl_cons]
      by_cases hnil : l = []
      · subst hnil
        rw [parseLine_blank]
        exact ih { st with isBody := true } hget (fun h => Bool.noConfusion h)
      · rw [parseLine_header cm st l hnil hb]
        have htw : List.takeWhile (fun l => l != []) (l :: t)
            = l :: List.takeWhile (fun l => l != []) t := by
          have hbne : (l != []) = true := by simpa using hnil
          rw [List.takeWhile_cons, hbne]
          rfl
        have hk : cm.toLowerCase (beforeColon l) ≠ k :=
          hl hb l (by rw [htw]; exact List.mem_cons_self _ _)
        apply ih
        · show (st.headers.set (cm.toLowerCase (beforeColon l)) (trim (afterColon l))).get k
            = some v
          rw [get_set_other _ _ _ _ (Ne.symm hk), hget]
        · intro _ x hx
          exact hl hb x (by rw [htw]; exact List.mem_cons_of_mem _ hx)

/-- Header parsing, for every name but `__proto__`: a header line `line` with a
colon that lies before the first blank line, whose lower-cased name is not
`__proto__` and is not repeated by a later header line, is stored under the
lower-cased text before its first colon, with the trimmed text after that colon
as value; the further colons of the value are kept. -/
theorem header_parsed (cm : CaseMap) (chunk first line : Str) (pre post : List Str)
    (hsplit : split CRLF chunk = first :: (pre ++ line :: post))
    (hpre : ∀ l ∈ pre, l ≠ [])
    (hcolon : ':' ∈ line)
    (hproto : cm.toLowerCase (beforeColon line) ≠ PROTO)
    (hlater : ∀ l ∈ post.takeWhile (fun l => l != []),
      cm.toLowerCase (beforeColon l) ≠ cm.toLowerCase (beforeColon line)) :
    (parseRequest cm chunk).headers.get (cm.toLowerCase (beforeColon line))
      = some (trim (afterColon line)) ∧
    line = beforeColon line ++ ':' :: afterColon line ∧
    join ":".toList (split ":".toList line).tail = afterColon line := by
  have hne : line ≠ [] := by
    intro h
    rw [h] at hcolon
    simp at hcolon
  refine ⟨?_, ?_, (colon_parts line).2⟩
  · unfold parseRequest
    simp only
    rw [hsplit, List.tail_cons]
    unfold parseLines
    rw [List.foldl_append, fold_headers cm pre _ rfl hpre, List.foldl_cons,
      parseLine_header cm _ line hne rfl]
    apply fold_keeps
    · exact get_set_same _ _ _ hproto
    · intro _
      exact hlater
  · unfold beforeColon afterColon
    have hsplit2 := (List.takeWhile_append_dropWhile (fun c => c != ':') line).symm
    cases hd : line.dropWhile (fun c => c != ':') with
    | nil =>
      exfalso
      rw [hd, List.append_nil] at hsplit2
      have : ∀ c ∈ line.takeWhile (fun c => c != ':'), c ≠ ':' := by
        intro c hc
        simpa using List.mem_takeWhile_imp hc
      rw [← hsplit2] at this
      exact this ':' hcolon rfl
    | cons d r =>
      have hdc : d = ':' := by
        have := List.head_dropWhile_not (fun c => c != ':') line (by rw [hd]; simp)
        simpa [hd] using this
      subst hdc
      rw [hd] at hsplit2
      simpa using hsplit2

/-- Header parsing at a concrete input: two headers, the value of one with
colons of its own. -/
theorem header_parsed_example :
    (parseRequest asciiCase "GET /\r\nHost:  a:b:c \r\nX-Id: 7\r\n\r\n".toList).headers.get
        (asciiCase.toLowerCase (beforeColon "Host:  a:b:c ".toList))
      = some (trim (afterColon "Host:  a:b:c ".toList)) :=
  (header_parsed asciiCase "GET /\r\nHost:  a:b:c \r\nX-Id: 7\r\n\r\n".toList "GET /".toList
    "Host:  a:b:c ".toList [] ["X-Id: 7".toList, [], []] (by decide) (by decide) (by decide)
    (by decide) (by decide)).1

/-- C5 (failing input): in the chunk `GET /`, `__proto__: x`, `host: y`, blank
line, the header line `__proto__: x` lies before the blank line, has a colon and
a name no later line repeats; the claim has the header mapping send its
lower-cased name `__proto__` to `x`, but the mapping built by the parsing loop
has no such entry: the assignment of text to `__proto__` stores nothing. -/
theorem proto_header_dropped :
    split CRLF "GET /\r\n__proto__: x\r\nhost: y\r\n\r\n".toList
      = ["GET /".toList, "__proto__: x".toList, "host: y".toList, [], []] ∧
    asciiCase.toLowerCase (beforeColon "__proto__: x".toList) = "__proto__".toList ∧
    trim (afterColon "__proto__: x".toList) = "x".toList ∧
    (parseRequest asciiCase "GET /\r\n__proto__: x\r\nhost: y\r\n\r\n".toList).headers
      = [("host".toList, "y".toList)] ∧
    (parseRequest asciiCase "GET /\r\n__proto__: x\r\nhost: y\r\n\r\n".toList).headers.get
        "__proto__".toList = none := by
  decide

end Gurt
